import Mathlib

/-!
# NodePass client: tunnel execution engine

A shallow embedding of `internal/client.go` (signal dispatcher, signal queue,
TCP/UDP forwarders, Stop) together with the two standard-library functions the
dispatcher's behaviour depends on, `net/url.Parse` and `strconv.Atoi`.

Go strings are byte sequences; they are embedded as lists of natural numbers
(one number per byte).
-/

namespace NodePass

/-- A Go string: its bytes in order. -/
abbrev GoString := List Nat

/-- The bytes of an ASCII literal. -/
def str (s : String) : GoString := s.toList.map Char.toNat

/-! ## package strings (single-byte separators) -/

/-- Go strings.Cut(s, sep) for a one-byte separator: before, after, found. -/
def cut (sep : Nat) : GoString → GoString × GoString × Bool
  | [] => ([], [], false)
  | c :: cs =>
    if c = sep then ([], cs, true)
    else ((c :: (cut sep cs).1), (cut sep cs).2.1, (cut sep cs).2.2)

/-- Go strings.IndexByte: position of the first occurrence. -/
def indexByte (c : Nat) : GoString → Option Nat
  | [] => none
  | x :: xs => if x = c then some 0 else (indexByte c xs).map (· + 1)

/-- Go strings.LastIndex for a one-byte separator: position of the last occurrence. -/
def lastIndexByte (c : Nat) : GoString → Option Nat
  | [] => none
  | x :: xs =>
    match lastIndexByte c xs with
    | some i => some (i + 1)
    | none => if x = c then some 0 else none

/-- Go strings.Index(s, sub): position of the first occurrence of sub. -/
def index (sub : GoString) : GoString → Option Nat
  | [] => if sub = [] then some 0 else none
  | x :: xs =>
    if sub.isPrefixOf (x :: xs) then some 0 else (index sub xs).map (· + 1)

/-- ASCII lower-casing of one byte (strings.ToLower on an ASCII string). -/
def lowerByte (c : Nat) : Nat := if 65 ≤ c ∧ c ≤ 90 then c + 32 else c

/-- Go strings.ToLower restricted to ASCII input (a URL scheme is ASCII). -/
def toLower (s : GoString) : GoString := s.map lowerByte

/-! ## package net/url

The part of url.Parse that decides the scheme, the host and the error, after the
Go standard library as of Go 1.26 (bracketed hosts checked with netip.ParseAddr,
strict colons). Fields of url.URL that the client never
reads are not built, but every check that can make Parse fail is kept. -/

/-- The escaping modes of net/url. -/
inductive encoding
  | encodePath
  | encodePathSegment
  | encodeHost
  | encodeZone
  | encodeUserPassword
  | encodeQueryComponent
  | encodeFragment
deriving DecidableEq, Repr

/-- The errors url.Parse can return. -/
inductive UrlError
  | invalidControlCharacter
  | missingProtocolScheme
  | firstPathSegmentColon
  | missingBracket
  | invalidPort
  | escapeError
  | invalidHostError
  | invalidUserinfo
  | invalidHost
  | invalidIPLiteral
deriving DecidableEq, Repr

/-- The fields of url.URL that the client reads. -/
structure URL where
  Scheme : GoString
  Host : GoString
deriving DecidableEq, Repr

def isLetter (c : Nat) : Bool := (97 ≤ c && c ≤ 122) || (65 ≤ c && c ≤ 90)

def isDigit (c : Nat) : Bool := 48 ≤ c && c ≤ 57

def ishex (c : Nat) : Bool :=
  (48 ≤ c && c ≤ 57) || (97 ≤ c && c ≤ 102) || (65 ≤ c && c ≤ 70)

def unhex (c : Nat) : Nat :=
  if 48 ≤ c ∧ c ≤ 57 then c - 48
  else if 97 ≤ c ∧ c ≤ 102 then c - 97 + 10
  else if 65 ≤ c ∧ c ≤ 70 then c - 65 + 10
  else 0

/-- Go stringContainsCTLByte: a byte below space, or DEL. -/
def stringContainsCTLByte (s : GoString) : Bool := s.any (fun b => b < 32 || b = 127)

/-- Go shouldEscape(c, mode). -/
def shouldEscape (c : Nat) (mode : encoding) : Bool :=
  if isLetter c || isDigit c then false
  else if (mode = .encodeHost || mode = .encodeZone) &&
      -- ! $ & ' ( ) * + , ; = : [ ] < > "
      [33, 36, 38, 39, 40, 41, 42, 43, 44, 59, 61, 58, 91, 93, 60, 62, 34].contains c then false
  else if [45, 95, 46, 126].contains c then false -- - _ . ~
  else if [36, 38, 43, 44, 47, 58, 59, 61, 63, 64].contains c then -- $ & + , / : ; = ? @
    match mode with
    | .encodePath => c = 63
    | .encodePathSegment => c = 47 || c = 59 || c = 44 || c = 63
    | .encodeUserPassword => c = 64 || c = 47 || c = 63 || c = 58
    | .encodeQueryComponent => true
    | .encodeFragment => false
    | _ => true
  else if mode = .encodeFragment && [33, 40, 41, 42].contains c then false -- ! ( ) *
  else true

/-- First pass of Go unescape: every percent sign starts a well-formed escape
that the mode allows, and a host or zone holds no byte that must be escaped. -/
def unescapeCheck (mode : encoding) : GoString → Except UrlError Unit
  | [] => .ok ()
  | c :: rest =>
    if c = 37 then
      match rest with
      | a :: b :: rest2 =>
        if !ishex a || !ishex b then .error .escapeError
        else if mode = .encodeHost && unhex a < 8 && !(a = 50 && b = 53) then
          .error .escapeError
        else if mode = .encodeZone && !(a = 50 && b = 53) && unhex a * 16 + unhex b ≠ 32 &&
            shouldEscape (unhex a * 16 + unhex b) .encodeHost then
          .error .escapeError
        else unescapeCheck mode rest2
      | _ => .error .escapeError
    else if (mode = .encodeHost || mode = .encodeZone) && c < 128 &&
        shouldEscape c .encodeHost then
      .error .invalidHostError
    else unescapeCheck mode rest

/-- Second pass of Go unescape: replace each escape by its byte (and a plus by a
space in query-component mode). -/
def unescapeDecode (mode : encoding) : GoString → GoString
  | [] => []
  | c :: rest =>
    if c = 37 then
      match rest with
      | a :: b :: rest2 => (unhex a * 16 + unhex b) :: unescapeDecode mode rest2
      | _ => []
    else if c = 43 then
      (if mode = .encodeQueryComponent then 32 else 43) :: unescapeDecode mode rest
    else c :: unescapeDecode mode rest

/-- Go unescape(s, mode). -/
def unescape (s : GoString) (mode : encoding) : Except UrlError GoString :=
  match unescapeCheck mode s with
  | .error e => .error e
  | .ok _ => .ok (unescapeDecode mode s)

/-- Loop of Go getScheme; pre is rawURL[:i]. -/
def getSchemeLoop (pre : GoString) : GoString → Except UrlError (GoString × GoString)
  | [] => .ok ([], pre)
  | c :: cs =>
    if isLetter c then getSchemeLoop (pre ++ [c]) cs
    else if isDigit c || c = 43 || c = 45 || c = 46 then
      if pre = [] then .ok ([], pre ++ c :: cs) else getSchemeLoop (pre ++ [c]) cs
    else if c = 58 then
      if pre = [] then .error .missingProtocolScheme else .ok (pre, cs)
    else .ok ([], pre ++ c :: cs)

/-- Go getScheme(rawURL): scheme and the rest after the colon. -/
def getScheme (rawURL : GoString) : Except UrlError (GoString × GoString) :=
  getSchemeLoop [] rawURL

/-- Go validOptionalPort: empty, or a colon followed by digits only. -/
def validOptionalPort (port : GoString) : Bool :=
  match port with
  | [] => true
  | c :: ds => c = 58 && ds.all isDigit

/-- Go validUserinfo. -/
def validUserinfo (s : GoString) : Bool :=
  s.all fun r => isLetter r || isDigit r ||
    -- - . _ : ~ ! $ & ' ( ) * + , ; = % @
    [45, 46, 95, 58, 126, 33, 36, 38, 39, 40, 41, 42, 43, 44, 59, 61, 37, 64].contains r

/-- Loop of Go netip parseIPv4Fields: val and digLen describe the octet being
read, pos counts the octets done, first says that no byte was read yet, prevDot
that the byte before was a dot. True when the text is four octets in dotted
decimal. -/
def parseIPv4FieldsLoop (val pos digLen : Nat) (first prevDot : Bool) : GoString → Bool
  | [] => 3 ≤ pos
  | ch :: rest =>
    if isDigit ch then
      if digLen = 1 ∧ val = 0 then false
      else if val * 10 + (ch - 48) > 255 then false
      else parseIPv4FieldsLoop (val * 10 + (ch - 48)) pos (digLen + 1) false false rest
    else if ch = 46 then
      if first || rest.isEmpty || prevDot then false
      else if pos = 3 then false
      else parseIPv4FieldsLoop 0 (pos + 1) 0 false true rest
    else false

/-- Go netip parseIPv4Fields on a whole text: whether it succeeds. -/
def parseIPv4Fields (s : GoString) : Bool := parseIPv4FieldsLoop 0 0 0 true false s

/-- End of Go netip parseIPv6, after the loop: the text must be used up; fewer
than 16 bytes filled need an ellipsis, all 16 filled forbid one. -/
def parseIPv6Finish (i : Nat) (ellipsis : Bool) (s : GoString) : Bool :=
  if !s.isEmpty then false
  else if i < 16 then ellipsis
  else !ellipsis

/-- Loop of Go netip parseIPv6: i is the number of address bytes filled (the loop
runs while i is below 16, groups counts the iterations left), ellipsis whether a
double colon was seen. True when the text is accepted. -/
def parseIPv6Loop : (groups : Nat) → (i : Nat) → (ellipsis : Bool) → GoString → Bool
  | 0, i, ellipsis, s => parseIPv6Finish i ellipsis s
  | groups + 1, i, ellipsis, s =>
    let off := (s.takeWhile ishex).length
    if off > 4 then false
    else if off = 0 then false
    else
      match s.drop off with
      | [] => parseIPv6Finish (i + 2) ellipsis []
      | c :: r1 =>
        if c = 46 then
          if !ellipsis && i ≠ 12 then false
          else if i + 4 > 16 then false
          else if !parseIPv4Fields s then false
          else parseIPv6Finish (i + 4) ellipsis []
        else if c ≠ 58 then false
        else
          match r1 with
          | [] => false
          | c2 :: r2 =>
            if c2 = 58 then
              if ellipsis then false
              else if r2.isEmpty then parseIPv6Finish (i + 2) true []
              else parseIPv6Loop groups (i + 2) true r2
            else parseIPv6Loop groups (i + 2) ellipsis (c2 :: r2)

/-- Go netip parseIPv6: whether the text is an IPv6 address, with an optional
non-empty zone after a percent sign. -/
def parseIPv6 (inp : GoString) : Bool :=
  let s := (cut 37 inp).1
  if (cut 37 inp).2.2 && (cut 37 inp).2.1.isEmpty then false
  else
    match s with
    | 58 :: 58 :: rest => if rest.isEmpty then true else parseIPv6Loop 8 0 true rest
    | _ => parseIPv6Loop 8 0 false s

/-- The kind of address Go netip.ParseAddr returns. -/
inductive AddrKind
  | is4
  | is6
deriving DecidableEq, Repr

/-- Go netip.ParseAddr, as far as url.Parse uses it: the first dot, colon or
percent sign decides how the text is read. -/
def ParseAddr : GoString → GoString → Option AddrKind
  | _, [] => none
  | s, c :: rest =>
    if c = 46 then (if parseIPv4Fields s then some .is4 else none)
    else if c = 58 then (if parseIPv6 s then some .is6 else none)
    else if c = 37 then none
    else ParseAddr s rest

/-- Go parseHost (with the default strict handling of colons): a host with an
opening bracket must be an IPv6 literal in brackets with an optional port; in
any other host everything from the first colon on must be a port. -/
def parseHost (host : GoString) : Except UrlError GoString :=
  match lastIndexByte 91 host with
  | some openBracketIdx =>
    match lastIndexByte 93 host with
    | none => .error .missingBracket
    | some closeBracketIdx =>
      let colonPort := host.drop (closeBracketIdx + 1)
      if !validOptionalPort colonPort then .error .invalidPort
      else
        match unescape colonPort .encodeHost with
        | .error e => .error e
        | .ok unescapedColonPort =>
          let hostname := (host.take closeBracketIdx).drop (openBracketIdx + 1)
          let unescapedHostname : Except UrlError GoString :=
            match index [37, 50, 53] hostname with
            | some zoneIdx =>
              match unescape (hostname.take zoneIdx) .encodeHost with
              | .error e => .error e
              | .ok hostPart =>
                match unescape (hostname.drop zoneIdx) .encodeZone with
                | .error e => .error e
                | .ok zonePart => .ok (hostPart ++ zonePart)
            | none => unescape hostname .encodeHost
          match unescapedHostname with
          | .error e => .error e
          | .ok name =>
            match ParseAddr name name with
            | none => .error .invalidHost
            | some .is4 => .error .invalidIPLiteral
            | some .is6 => .ok ([91] ++ name ++ [93] ++ unescapedColonPort)
  | none =>
    match indexByte 58 host with
    | some i =>
      if !validOptionalPort (host.drop i) then .error .invalidPort
      else unescape host .encodeHost
    | none => unescape host .encodeHost

/-- Go parseAuthority: only the host and the error are kept; the user
information is validated and unescaped as in the source. -/
def parseAuthority (authority : GoString) : Except UrlError GoString :=
  match lastIndexByte 64 authority with
  | none => parseHost authority
  | some i =>
    match parseHost (authority.drop (i + 1)) with
    | .error e => .error e
    | .ok host =>
      let userinfo := authority.take i
      if !validUserinfo userinfo then .error .invalidUserinfo
      else if !userinfo.contains 58 then
        match unescape userinfo .encodeUserPassword with
        | .error e => .error e
        | .ok _ => .ok host
      else
        match unescape (cut 58 userinfo).1 .encodeUserPassword with
        | .error e => .error e
        | .ok _ =>
          match unescape (cut 58 userinfo).2.1 .encodeUserPassword with
          | .error e => .error e
          | .ok _ => .ok host

/-- Go url.parse(rawURL, viaRequest = false). -/
def parse (rawURL : GoString) : Except UrlError URL :=
  if stringContainsCTLByte rawURL then .error .invalidControlCharacter
  else if rawURL = [42] then .ok ⟨[], []⟩
  else
    match getScheme rawURL with
    | .error e => .error e
    | .ok (scheme0, rest0) =>
      let scheme := toLower scheme0
      let rest1 :=
        if rest0.getLast? = some 63 && rest0.count 63 = 1 then rest0.dropLast
        else (cut 63 rest0).1
      if !([47].isPrefixOf rest1) && scheme ≠ [] then .ok ⟨scheme, []⟩
      else if !([47].isPrefixOf rest1) && (cut 47 rest1).1.contains 58 then
        .error .firstPathSegmentColon
      else if (scheme ≠ [] || !([47, 47, 47].isPrefixOf rest1)) && [47, 47].isPrefixOf rest1 then
        let authority0 := rest1.drop 2
        let authority :=
          match indexByte 47 authority0 with
          | some i => authority0.take i
          | none => authority0
        let rest2 :=
          match indexByte 47 authority0 with
          | some i => authority0.drop i
          | none => []
        match parseAuthority authority with
        | .error e => .error e
        | .ok host =>
          match unescape rest2 .encodePath with
          | .error e => .error e
          | .ok _ => .ok ⟨scheme, host⟩
      else
        match unescape rest1 .encodePath with
        | .error e => .error e
        | .ok _ => .ok ⟨scheme, []⟩

/-- Go url.Parse(rawURL). -/
def urlParse (rawURL : GoString) : Except UrlError URL :=
  match parse (cut 35 rawURL).1 with
  | .error e => .error e
  | .ok url =>
    if (cut 35 rawURL).2.1 = [] then .ok url
    else
      match unescape (cut 35 rawURL).2.1 .encodeFragment with
      | .error e => .error e
      | .ok _ => .ok url

/-! ## package strconv

strconv.Atoi after the Go standard library, fast path and ParseInt path, with
the value it returns next to an error. -/

/-- The two error kinds of strconv. -/
inductive NumError
  | ErrSyntax
  | ErrRange
deriving DecidableEq, Repr

/-- Size of the Go int type in bits (64-bit build). -/
def intSize : Nat := 64

/-- Go maxUint64. -/
def maxUint64 : Nat := 2 ^ 64 - 1

/-- Digit loop of Go strconv.ParseUint(s, 10, 64); n is the accumulator. -/
def parseUintLoop (n : Nat) : GoString → Nat × Option NumError
  | [] => (n, none)
  | c :: cs =>
    if isDigit c then
      if n ≥ maxUint64 / 10 + 1 then (maxUint64, some .ErrRange)
      else if (n * 10 + (c - 48)) % 2 ^ 64 < n * 10 ∨ (n * 10 + (c - 48)) % 2 ^ 64 > maxUint64 then
        (maxUint64, some .ErrRange)
      else parseUintLoop ((n * 10 + (c - 48)) % 2 ^ 64) cs
    else (0, some .ErrSyntax)

/-- Go strconv.ParseUint(s, 10, 64). -/
def ParseUint (s : GoString) : Nat × Option NumError :=
  if s = [] then (0, some .ErrSyntax) else parseUintLoop 0 s

/-- Go strconv.ParseInt(s, 10, 0). -/
def ParseInt (s0 : GoString) : Int × Option NumError :=
  match s0 with
  | [] => (0, some .ErrSyntax)
  | c :: cs =>
    let neg : Bool := c = 45
    let s := if c = 43 ∨ c = 45 then cs else s0
    match ParseUint s with
    | (_, some .ErrSyntax) => (0, some .ErrSyntax)
    | (un, _) =>
      let cutoff : Nat := 2 ^ (intSize - 1)
      if !neg && un ≥ cutoff then ((cutoff : Int) - 1, some .ErrRange)
      else if neg && un > cutoff then (-(cutoff : Int), some .ErrRange)
      else (if neg then -(un : Int) else (un : Int), none)

/-- Digit loop of the fast path of Go strconv.Atoi. -/
def atoiLoop (n : Nat) : GoString → Option Nat
  | [] => some n
  | ch :: rest => if isDigit ch then atoiLoop (n * 10 + (ch - 48)) rest else none

/-- Go strconv.Atoi(s): the value and the error (none is nil). On an error the
value is 0 (syntax) or the nearest int (range). -/
def Atoi (s0 : GoString) : Int × Option NumError :=
  if 0 < s0.length ∧ s0.length < 19 then
    match s0 with
    | [] => (0, some .ErrSyntax)
    | c :: cs =>
      let s := if c = 45 ∨ c = 43 then cs else s0
      if (c = 45 ∨ c = 43) ∧ s.length < 1 then (0, some .ErrSyntax)
      else
        match atoiLoop 0 s with
        | none => (0, some .ErrSyntax)
        | some n => (if c = 45 then -(n : Int) else (n : Int), none)
  else ParseInt s0

/-! ## internal/client.go

Connections and the pool are external; what the client does to them is kept as
state (Stop) or as a trace of actions (the forwarders). Log calls have no effect
on the state and are left out. -/

/-- A network connection as its holder sees it: closed tells whether Close has
been called on it, closeCalls how often. -/
structure Conn where
  closed : Bool
  closeCalls : Nat
deriving DecidableEq, Repr

/-- A call of Close on a connection. What Close does to an already closed
connection is the business of package net and is not modelled; the call is
counted. -/
def Conn.Close (k : Conn) : Conn :=
  { closed := true, closeCalls := k.closeCalls + 1 }

/-- The connection pool of the external package conn, as far as Stop touches it. -/
structure Pool where
  closed : Bool
  closeCalls : Nat
deriving DecidableEq, Repr

/-- A call of Close on the pool; what the pool does on a repeated call is not
modelled, the call is counted. -/
def Pool.Close (p : Pool) : Pool :=
  { closed := true, closeCalls := p.closeCalls + 1 }

/-- Modelled from the spec: the declaration of the embedded struct common is in a
file outside the sources at hand; these are the fields client.go reads and
writes (the Client State of the data model). A nil handle is none. ctxDone says
whether the context c.ctx is cancelled, remoteAddrPort is c.remoteAddr.Port, the
data-dial port. -/
structure client where
  ctxDone : Bool
  cancel : Option Unit
  remoteAddrPort : Int
  remotePool : Option Pool
  targetUDPConn : Option Conn
  targetTCPConn : Option Conn
  tunnelConn : Option Conn
  signalChan : List GoString
deriving DecidableEq, Repr

/-- A run-time fault (Go panic) raised by the code of client.go itself. -/
inductive Fault
  | nilDereference
deriving DecidableEq, Repr

/-- NewClient: the client before Start has run; port is the port that getAddress
resolved for the tunnel endpoint. -/
def NewClient (port : Int) : client :=
  { ctxDone := false, cancel := none, remoteAddrPort := port, remotePool := none,
    targetUDPConn := none, targetTCPConn := none, tunnelConn := none, signalChan := [] }

/-- The dial function Start hands to the pool: it dials c.remoteAddr as it is
when the pool calls it; the result is the port dialled. -/
def poolDial (c : client) : Int := c.remoteAddrPort

/-- Calling c.cancel(): a nil function value faults; a cancel function marks the
context done (a repeated call does nothing more). -/
def callCancel (c : client) : Except Fault client :=
  match c.cancel with
  | none => .error .nilDereference
  | some _ => .ok { c with ctxDone := true }

/-- Calling Close through a connection handle: a nil handle faults. -/
def closeHandle (h : Option Conn) : Except Fault (Option Conn) :=
  match h with
  | none => .error .nilDereference
  | some k => .ok (some k.Close)

/-- Calling Close through the pool handle: a nil handle faults. -/
def closePool (h : Option Pool) : Except Fault (Option Pool) :=
  match h with
  | none => .error .nilDereference
  | some p => .ok (some p.Close)

/-- The final loop of Stop: receive from signalChan until nothing is ready. -/
def drain : List GoString → List GoString
  | [] => []
  | _ :: rest => drain rest

/-- Stop. -/
def Stop (c : client) : Except Fault client := do
  let c ← if c.cancel ≠ none then callCancel c else pure c
  let c ← if c.remotePool ≠ none then
      (closePool c.remotePool).map (fun p => { c with remotePool := p })
    else pure c
  let c ← if c.targetUDPConn ≠ none then
      (closeHandle c.targetUDPConn).map (fun k => { c with targetUDPConn := k })
    else pure c
  let c ← if c.targetTCPConn ≠ none then
      (closeHandle c.targetTCPConn).map (fun k => { c with targetTCPConn := k })
    else pure c
  let c ← if c.tunnelConn ≠ none then
      (closeHandle c.tunnelConn).map (fun k => { c with tunnelConn := k })
    else pure c
  pure { c with signalChan := drain c.signalChan }

/-- A forwarding goroutine started by the dispatcher. -/
inductive Task
  | tcp (id : GoString)
  | udp (id : GoString)
deriving DecidableEq, Repr

/-- The case the select statement of clientLaunch takes in one iteration. -/
inductive Select
  | done
  | signal (s : GoString)
deriving DecidableEq, Repr

/-- The dispatcher goroutine: the client it works on, the goroutines it has
started so far (oldest first), and whether clientLaunch has returned. -/
structure Launch where
  c : client
  spawned : List Task
  returned : Bool
deriving DecidableEq, Repr

/-- One iteration of the loop of clientLaunch. -/
def clientLaunchIter (l : Launch) (sel : Select) : Launch :=
  match sel with
  | .done => { l with returned := true }
  | .signal signal =>
    match urlParse signal with
    | .error _ => { l with returned := true }
    | .ok signalURL =>
      if signalURL.Scheme = str "remote" then
        let r := Atoi signalURL.Host
        let l1 := { l with c := { l.c with remoteAddrPort := r.1 } }
        if r.2 ≠ none then { l1 with returned := true } else l1
      else if signalURL.Scheme = str "tcp" then
        { l with spawned := l.spawned ++ [.tcp signalURL.Host] }
      else if signalURL.Scheme = str "udp" then
        { l with spawned := l.spawned ++ [.udp signalURL.Host] }
      else l

/-- The loop of clientLaunch over the cases its select takes, in order; once it
has returned nothing more is received. -/
def clientLaunch (l : Launch) : List Select → Launch
  | [] => l
  | sel :: rest => if l.returned then l else clientLaunch (clientLaunchIter l sel) rest

/-- The dispatcher fed a sequence of signals, none of them pre-empted by
cancellation. -/
def dispatch (l : Launch) (signals : List GoString) : Launch :=
  clientLaunch l (signals.map .signal)

/-- The non-blocking send of signalQueue on a channel of the given capacity:
the signal is appended when there is room and dropped otherwise. -/
def offer (semaphoreLimit : Nat) (ch : List GoString) (signal : GoString) : List GoString :=
  if ch.length < semaphoreLimit then ch ++ [signal] else ch

/-- The loop of signalQueue over the results of ReadBytes, in order, with no
receive in between: it ends when the context is done or a read fails. The
constant semaphoreLimit and strings.TrimSpace are parameters; the error the
function returns is left out. -/
def signalQueue (semaphoreLimit : Nat) (trimSpace : GoString → GoString) (c : client) :
    List (Except Unit GoString) → client
  | [] => c
  | .error _ :: _ => c
  | .ok rawSignal :: rest =>
    if c.ctxDone then c
    else
      signalQueue semaphoreLimit trimSpace
        { c with signalChan := offer semaphoreLimit c.signalChan (trimSpace rawSignal) } rest

/-- What a forwarder does to its connections, in order. -/
inductive Action
  | clientGet (id : GoString)
  | remoteClose
  | remoteRead
  | remoteWrite (data : GoString)
  | targetDial
  | targetClose
  | targetWrite (data : GoString)
  | targetSetReadDeadline
  | targetRead
  | dataExchange
deriving DecidableEq, Repr

/-- The outcomes of the calls clientTCPOnce makes: whether ClientGet finds a
connection for the id, whether DialTCP succeeds, whether DataExchange ends with
an error. -/
structure TCPEnv where
  clientGet : GoString → Bool
  dialTCP : Bool
  exchangeErr : Bool

/-- The function clientTCPOnce: the client afterwards and the actions taken. The
deferred closes run at return, last registered first. -/
def clientTCPOnce (env : TCPEnv) (c : client) (id : GoString) : client × List Action :=
  if !env.clientGet id then (c, [.clientGet id])
  else
    let deferRemote : List Action := [.remoteClose]
    if !env.dialTCP then (c, [.clientGet id, .targetDial] ++ deferRemote)
    else
      let deferTarget : List Action := [.targetClose]
      let targetConn : Conn := { closed := false, closeCalls := 0 }
      ({ c with targetTCPConn := some targetConn.Close },
        [.clientGet id, .targetDial, .dataExchange] ++ deferTarget ++ deferRemote)

/-- The outcomes of the calls clientUDPOnce makes. remoteRead is what the pooled
connection delivers to one Read (or an error), targetRead the datagram the
target replies with (or an error, a deadline expiry included). The outcome of
the last Write on the pooled connection only changes what is logged. -/
structure UDPEnv where
  clientGet : GoString → Bool
  remoteRead : Except Unit GoString
  dialUDP : Bool
  targetWrite : Bool
  setReadDeadline : Bool
  targetRead : Except Unit GoString

/-- Reading into a buffer: at most len(buffer) bytes are copied over its start;
the result is the buffer and the count n. -/
def readInto (buffer data : GoString) : GoString × Nat :=
  ((data.take buffer.length) ++ buffer.drop (min data.length buffer.length),
    min data.length buffer.length)

/-- The function clientUDPOnce; udpDataBufSize is a parameter. -/
def clientUDPOnce (udpDataBufSize : Nat) (env : UDPEnv) (c : client) (id : GoString) :
    client × List Action :=
  if !env.clientGet id then (c, [.clientGet id])
  else
    let deferRemote : List Action := [.remoteClose]
    let buffer : GoString := List.replicate udpDataBufSize 0
    match env.remoteRead with
    | .error _ => (c, [.clientGet id, .remoteRead] ++ deferRemote)
    | .ok payload =>
      let (buffer, n) := readInto buffer payload
      if !env.dialUDP then (c, [.clientGet id, .remoteRead, .targetDial] ++ deferRemote)
      else
        let deferTarget : List Action := [.targetClose]
        let targetUDPConn : Conn := { closed := false, closeCalls := 0 }
        let c := { c with targetUDPConn := some targetUDPConn.Close }
        let pre : List Action :=
          [.clientGet id, .remoteRead, .targetDial, .targetWrite (buffer.take n)]
        if !env.targetWrite then (c, pre ++ deferTarget ++ deferRemote)
        else if !env.setReadDeadline then
          (c, pre ++ [.targetSetReadDeadline] ++ deferTarget ++ deferRemote)
        else
          match env.targetRead with
          | .error _ =>
            (c, pre ++ [.targetSetReadDeadline, .targetRead] ++ deferTarget ++ deferRemote)
          | .ok reply =>
            let (buffer, n) := readInto buffer reply
            (c, pre ++ [.targetSetReadDeadline, .targetRead, .remoteWrite (buffer.take n)]
              ++ deferTarget ++ deferRemote)

/-! ## Vocabulary of the statements -/

/-- A byte that getScheme accepts after the first one. -/
def schemeByte (c : Nat) : Bool := isLetter c || isDigit c || c = 43 || c = 45 || c = 46

/-- A URL scheme as getScheme accepts it: a letter, then letters, digits, plus,
minus or dot. -/
def validScheme : GoString → Bool
  | [] => false
  | c :: cs => isLetter c && cs.all schemeByte

/-- A byte that may stand unescaped in a URL host and is no colon or square
bracket (the punctuation of ports and IP literals): a non-ASCII byte, or an
ASCII byte that shouldEscape leaves alone in host mode. -/
def plainHostByte (b : Nat) : Bool :=
  b ≠ 58 && b ≠ 91 && b ≠ 93 && (128 ≤ b || !shouldEscape b .encodeHost)

/-- A value the URL parser takes over unchanged as the host. -/
def plainHost (x : GoString) : Bool := x.all plainHostByte

/-- The number a string of ASCII digits denotes in base ten. -/
def decimalValue (ds : GoString) : Nat := Nat.ofDigits 10 (ds.reverse.map (· - 48))

/-- A signal that ends the dispatcher: the URL parser rejects it, or its scheme
is remote and its host is no integer. -/
def fatalSignal (s : GoString) : Prop :=
  (∃ e, urlParse s = .error e) ∨
    ∃ u, urlParse s = .ok u ∧ u.Scheme = str "remote" ∧ (Atoi u.Host).2 ≠ none

/-- The bytes that end the authority of a URL or split it: slash, question
mark, hash, at sign. -/
def noDelimiter (v : GoString) : Bool :=
  v.all fun b => b ≠ 47 && b ≠ 63 && b ≠ 35 && b ≠ 64

/-- A byte of a signed decimal numeral: a digit, plus or minus. -/
def numeralByte (b : Nat) : Bool := isDigit b || b = 43 || b = 45

/-- A connection with the count of Close calls set aside. -/
def Conn.eraseCalls (k : Conn) : Conn := { k with closeCalls := 0 }

/-- A pool with the count of Close calls set aside. -/
def Pool.eraseCalls (p : Pool) : Pool := { p with closeCalls := 0 }

/-- A client state with the counts of Close calls set aside: what is left is
which handles are held, whether each is closed, the context, the port and the
queue. -/
def client.eraseCalls (c : client) : client :=
  { c with
    remotePool := c.remotePool.map Pool.eraseCalls
    targetUDPConn := c.targetUDPConn.map Conn.eraseCalls
    targetTCPConn := c.targetTCPConn.map Conn.eraseCalls
    tunnelConn := c.tunnelConn.map Conn.eraseCalls }

/-! ## Lemmas on the string helpers -/

theorem str_sep : str "://" = [58, 47, 47] := by decide

theorem cut_of_forall_ne (sep : Nat) (s : GoString) (h : ∀ b ∈ s, b ≠ sep) :
    cut sep s = (s, [], false) := by
  induction s with
  | nil => rfl
  | cons c cs ih =>
    have hc : c ≠ sep := h c (List.mem_cons_self _ _)
    have ih2 := ih (fun b hb => h b (List.mem_cons_of_mem _ hb))
    simp [cut, hc, ih2]

theorem indexByte_of_forall_ne (c : Nat) (s : GoString) (h : ∀ b ∈ s, b ≠ c) :
    indexByte c s = none := by
  induction s with
  | nil => rfl
  | cons x xs ih =>
    have hx : x ≠ c := h x (List.mem_cons_self _ _)
    have ih2 := ih (fun b hb => h b (List.mem_cons_of_mem _ hb))
    simp [indexByte, hx, ih2]

theorem lastIndexByte_of_forall_ne (c : Nat) (s : GoString) (h : ∀ b ∈ s, b ≠ c) :
    lastIndexByte c s = none := by
  induction s with
  | nil => rfl
  | cons x xs ih =>
    have hx : x ≠ c := h x (List.mem_cons_self _ _)
    have ih2 := ih (fun b hb => h b (List.mem_cons_of_mem _ hb))
    simp [lastIndexByte, hx, ih2]

theorem getSchemeLoop_scheme (rest : GoString) :
    ∀ (cs pre : GoString), pre ≠ [] → cs.all schemeByte = true →
      getSchemeLoop pre (cs ++ 58 :: rest) = .ok (pre ++ cs, rest) := by
  intro cs
  induction cs with
  | nil =>
    intro pre hpre _
    simp [getSchemeLoop, hpre, isLetter, isDigit]
  | cons c cs ih =>
    intro pre hpre hall
    have hc : schemeByte c = true := by
      simp only [List.all_cons, Bool.and_eq_true] at hall
      exact hall.1
    have hcs : cs.all schemeByte = true := by
      simp only [List.all_cons, Bool.and_eq_true] at hall
      exact hall.2
    have hne : pre ++ [c] ≠ [] := by simp
    have ih2 := ih (pre ++ [c]) hne hcs
    simp only [List.append_assoc, List.singleton_append] at ih2
    simp only [List.cons_append, getSchemeLoop]
    by_cases hl : isLetter c = true
    · simp [hl, ih2]
    · have hd : (isDigit c || decide (c = 43) || decide (c = 45) || decide (c = 46)) = true := by
        simp only [schemeByte] at hc
        simp only [Bool.not_eq_true] at hl
        simpa [hl] using hc
      simp [hl, hd, hpre, ih2]

theorem getScheme_scheme (scheme rest : GoString) (hs : validScheme scheme = true) :
    getScheme (scheme ++ 58 :: rest) = .ok (scheme, rest) := by
  cases scheme with
  | nil => simp [validScheme] at hs
  | cons c cs =>
    simp only [validScheme, Bool.and_eq_true] at hs
    have h := getSchemeLoop_scheme rest cs [c] (by simp) hs.2
    simp only [getScheme, List.cons_append, getSchemeLoop, hs.1, if_true]
    simpa using h

/-! ## Lemmas on net/url -/

theorem shouldEscape_ctl : ∀ b, b < 32 → shouldEscape b .encodeHost = true := by decide

theorem plainHostByte_not_ctl (b : Nat) (h : plainHostByte b = true) :
    (decide (b < 32) || decide (b = 127)) = false := by
  simp only [plainHostByte, Bool.and_eq_true, Bool.or_eq_true, decide_eq_true_eq,
    Bool.not_eq_true'] at h
  rcases h with ⟨_, h | h⟩
  · simp; omega
  · by_cases hb : b < 32
    · rw [shouldEscape_ctl b hb] at h; exact absurd h (by decide)
    · by_cases h7 : b = 127
      · subst h7; exact absurd h (by decide)
      · simp [hb, h7]

theorem plainHostByte_ne (b c : Nat) (h : plainHostByte b = true)
    (hc : c = 35 ∨ c = 63 ∨ c = 47 ∨ c = 64 ∨ c = 37 ∨ c = 58 ∨ c = 91) : b ≠ c := by
  intro hbc
  subst hbc
  rcases hc with hc | hc | hc | hc | hc | hc | hc <;> subst hc <;> exact absurd h (by decide)

theorem schemeByte_ne (b c : Nat) (h : schemeByte b = true) (hc : c = 35 ∨ c = 58 ∨ c = 47) :
    b ≠ c := by
  intro hbc
  subst hbc
  rcases hc with hc | hc | hc <;> subst hc <;> exact absurd h (by decide)

theorem schemeByte_not_ctl (b : Nat) (h : schemeByte b = true) :
    (decide (b < 32) || decide (b = 127)) = false := by
  simp only [schemeByte, isLetter, isDigit, Bool.or_eq_true, Bool.and_eq_true,
    decide_eq_true_eq] at h
  simp
  omega

theorem validScheme_all (scheme : GoString) (h : validScheme scheme = true) :
    ∀ b ∈ scheme, schemeByte b = true := by
  cases scheme with
  | nil => simp [validScheme] at h
  | cons c cs =>
    simp only [validScheme, Bool.and_eq_true, List.all_eq_true] at h
    intro b hb
    rcases List.mem_cons.1 hb with hb | hb
    · subst hb; simp [schemeByte, h.1]
    · exact h.2 b hb

theorem unescapeCheck_plain (x : GoString) (h : plainHost x = true) :
    unescapeCheck .encodeHost x = .ok () := by
  induction x with
  | nil => rfl
  | cons c cs ih =>
    simp only [plainHost, List.all_cons, Bool.and_eq_true] at h
    have ih2 := ih (by simpa [plainHost] using h.2)
    have h37 : c ≠ 37 := plainHostByte_ne c 37 h.1 (by simp)
    have hesc : (decide (c < 128) && shouldEscape c .encodeHost) = false := by
      have h1 := h.1
      simp only [plainHostByte, Bool.and_eq_true, Bool.or_eq_true, decide_eq_true_eq,
        Bool.not_eq_true'] at h1
      rcases h1 with ⟨_, h1 | h1⟩
      · have : ¬ c < 128 := by omega
        simp [this]
      · simp [h1]
    unfold unescapeCheck
    simp [h37, hesc, ih2]

theorem unescapeDecode_plain (mode : encoding) (hm : mode ≠ .encodeQueryComponent)
    (x : GoString) (h : ∀ b ∈ x, b ≠ 37) : unescapeDecode mode x = x := by
  induction x with
  | nil => rfl
  | cons c cs ih =>
    have h37 : c ≠ 37 := h c (List.mem_cons_self _ _)
    have ih2 := ih (fun b hb => h b (List.mem_cons_of_mem _ hb))
    unfold unescapeDecode
    simp only [h37, if_false, hm, ih2]
    by_cases h43 : c = 43
    · simp [h43]
    · simp [h43]

theorem unescape_plain (x : GoString) (h : plainHost x = true) :
    unescape x .encodeHost = .ok x := by
  have hall : ∀ b ∈ x, plainHostByte b = true := by
    simpa [plainHost] using h
  simp only [unescape, unescapeCheck_plain x h]
  rw [unescapeDecode_plain .encodeHost (by decide) x
    (fun b hb => plainHostByte_ne b 37 (hall b hb) (by simp))]

theorem parseHost_plain (x : GoString) (h : plainHost x = true) : parseHost x = .ok x := by
  have hall : ∀ b ∈ x, plainHostByte b = true := by
    simpa [plainHost] using h
  have hbr : lastIndexByte 91 x = none :=
    lastIndexByte_of_forall_ne 91 x (fun b hb => plainHostByte_ne b 91 (hall b hb) (by simp))
  have hcolon : indexByte 58 x = none :=
    indexByte_of_forall_ne 58 x (fun b hb => plainHostByte_ne b 58 (hall b hb) (by simp))
  simp only [parseHost, hbr, hcolon, unescape_plain x h]

theorem toLower_ne_nil (scheme : GoString) (h : validScheme scheme = true) :
    toLower scheme ≠ [] := by
  cases scheme with
  | nil => simp [validScheme] at h
  | cons c cs => simp [toLower]

theorem noDelimiter_ne (v : GoString) (h : noDelimiter v = true) (c : Nat)
    (hc : c = 47 ∨ c = 63 ∨ c = 35 ∨ c = 64) : ∀ b ∈ v, b ≠ c := by
  intro b hb
  simp only [noDelimiter, List.all_eq_true, Bool.and_eq_true, decide_eq_true_eq] at h
  have := h b hb
  omega

theorem parse_value (scheme v : GoString) (hs : validScheme scheme = true)
    (hv : noDelimiter v = true) :
    parse (scheme ++ 58 :: 47 :: 47 :: v) =
      if stringContainsCTLByte v then .error .invalidControlCharacter
      else
        match parseHost v with
        | .error e => .error e
        | .ok host => .ok ⟨toLower scheme, host⟩ := by
  have hsch := validScheme_all scheme hs
  have hctl : stringContainsCTLByte (scheme ++ 58 :: 47 :: 47 :: v)
      = stringContainsCTLByte v := by
    have h1 : scheme.any (fun b => decide (b < 32) || decide (b = 127)) = false := by
      simp only [List.any_eq_false]
      intro b hb
      simpa using schemeByte_not_ctl b (hsch b hb)
    simp only [stringContainsCTLByte, List.any_append, h1, List.any_cons, Bool.false_or]
    simp
  have hstar : scheme ++ 58 :: 47 :: 47 :: v ≠ [42] := by
    intro h
    have := congrArg List.length h
    simp at this
    omega
  have hq : ∀ b ∈ 47 :: 47 :: v, b ≠ 63 := by
    intro b hb
    simp only [List.mem_cons] at hb
    rcases hb with hb | hb | hb
    · omega
    · omega
    · exact noDelimiter_ne v hv 63 (by simp) b hb
  have hlast : (47 :: 47 :: v).getLast? ≠ some 63 := by
    intro h
    have hm := List.mem_of_getLast?_eq_some h
    exact hq 63 hm rfl
  have hcutq : cut 63 (47 :: 47 :: v) = (47 :: 47 :: v, [], false) :=
    cut_of_forall_ne 63 _ hq
  have hidx : indexByte 47 v = none :=
    indexByte_of_forall_ne 47 v (noDelimiter_ne v hv 47 (by simp))
  have hat : lastIndexByte 64 v = none :=
    lastIndexByte_of_forall_ne 64 v (noDelimiter_ne v hv 64 (by simp))
  have hauth : parseAuthority v = parseHost v := by
    simp only [parseAuthority, hat]
  have hlow := toLower_ne_nil scheme hs
  unfold parse
  rw [hctl]
  by_cases hc : stringContainsCTLByte v = true
  · simp only [hc, if_true]
  · rw [getScheme_scheme scheme _ hs]
    have hcond : (decide ((47 :: 47 :: v).getLast? = some 63) &&
        decide ((47 :: 47 :: v).count 63 = 1)) = false := by
      simp only [hlast, decide_False, Bool.false_and]
    have hp1 : ([47] : GoString).isPrefixOf (47 :: 47 :: v) = true := by
      simp [List.isPrefixOf]
    have hp2 : ([47, 47] : GoString).isPrefixOf (47 :: 47 :: v) = true := by
      simp [List.isPrefixOf]
    have hlow2 : decide (toLower scheme ≠ []) = true := by simp [hlow]
    have hpath : unescape [] .encodePath = .ok [] := rfl
    simp only [hc, if_false, hstar, hcond, hcutq, hp1, hp2, hlow2,
      Bool.not_true, Bool.false_and, Bool.true_or, Bool.true_and, if_true, List.drop_succ_cons,
      List.drop_zero, hidx, hauth, hpath, Bool.false_eq_true]

/-- The URL parser on a signal made of a scheme, the separator and a value free
of delimiters: the value is parsed as the host. -/
theorem urlParse_value (scheme v : GoString) (hs : validScheme scheme = true)
    (hv : noDelimiter v = true) :
    urlParse (scheme ++ str "://" ++ v) =
      if stringContainsCTLByte v then .error .invalidControlCharacter
      else
        match parseHost v with
        | .error e => .error e
        | .ok host => .ok ⟨toLower scheme, host⟩ := by
  have hsch := validScheme_all scheme hs
  have heq : scheme ++ str "://" ++ v = scheme ++ 58 :: 47 :: 47 :: v := by
    rw [str_sep]; simp
  have hcut : cut 35 (scheme ++ 58 :: 47 :: 47 :: v)
      = (scheme ++ 58 :: 47 :: 47 :: v, [], false) := by
    apply cut_of_forall_ne
    intro b hb
    simp only [List.mem_append, List.mem_cons] at hb
    rcases hb with hb | hb | hb | hb | hb
    · exact schemeByte_ne b 35 (hsch b hb) (by simp)
    · omega
    · omega
    · omega
    · exact noDelimiter_ne v hv 35 (by simp) b hb
  rw [heq]
  unfold urlParse
  rw [hcut, parse_value scheme v hs hv]
  by_cases hc : stringContainsCTLByte v = true
  · simp [hc]
  · simp only [hc, if_false, Bool.false_eq_true]
    cases parseHost v <;> rfl

theorem plainHost_noDelimiter (x : GoString) (h : plainHost x = true) :
    noDelimiter x = true := by
  have hall : ∀ b ∈ x, plainHostByte b = true := by
    simpa [plainHost] using h
  simp only [noDelimiter, List.all_eq_true, Bool.and_eq_true, decide_eq_true_eq]
  intro b hb
  exact ⟨⟨⟨plainHostByte_ne b 47 (hall b hb) (by simp), plainHostByte_ne b 63 (hall b hb) (by simp)⟩,
    plainHostByte_ne b 35 (hall b hb) (by simp)⟩, plainHostByte_ne b 64 (hall b hb) (by simp)⟩

/-- The URL parser on a signal made of a scheme, the separator and a plain
value: the scheme lower-cased and the value as the host. -/
theorem urlParse_plain (scheme x : GoString) (hs : validScheme scheme = true)
    (hx : plainHost x = true) :
    urlParse (scheme ++ str "://" ++ x) = .ok ⟨toLower scheme, x⟩ := by
  have hall : ∀ b ∈ x, plainHostByte b = true := by
    simpa [plainHost] using hx
  have hctl : stringContainsCTLByte x = false := by
    simp only [stringContainsCTLByte, List.any_eq_false]
    intro b hb
    simpa using plainHostByte_not_ctl b (hall b hb)
  rw [urlParse_value scheme x hs (plainHost_noDelimiter x hx), hctl, parseHost_plain x hx]
  rfl

theorem unescape_ok_decode (mode : encoding) (v host : GoString)
    (h : unescape v mode = .ok host) :
    unescapeCheck mode v = .ok () ∧ host = unescapeDecode mode v := by
  simp only [unescape] at h
  cases hc : unescapeCheck mode v with
  | error e => rw [hc] at h; simp at h
  | ok u =>
    rw [hc] at h
    simp only [Except.ok.injEq] at h
    exact ⟨rfl, h.symm⟩

/-! ## Lemmas on strconv -/

theorem decimalValue_nil : decimalValue [] = 0 := by
  simp [decimalValue]

theorem decimalValue_append_singleton (l : GoString) (c : Nat) :
    decimalValue (l ++ [c]) = decimalValue l * 10 + (c - 48) := by
  simp [decimalValue, Nat.ofDigits_cons]
  ring

theorem decimalValue_cons (c : Nat) (cs : GoString) :
    decimalValue (c :: cs) = (c - 48) * 10 ^ cs.length + decimalValue cs := by
  simp [decimalValue, Nat.ofDigits_append]
  ring

theorem atoiLoop_digits : ∀ (ds : GoString) (n : Nat), (∀ b ∈ ds, isDigit b = true) →
    atoiLoop n ds = some (n * 10 ^ ds.length + decimalValue ds) := by
  intro ds
  induction ds with
  | nil => intro n _; simp [atoiLoop, decimalValue_nil]
  | cons c cs ih =>
    intro n h
    have hc : isDigit c = true := h c (List.mem_cons_self _ _)
    have ih2 := ih (n * 10 + (c - 48)) (fun b hb => h b (List.mem_cons_of_mem _ hb))
    simp only [atoiLoop, hc, if_true, ih2, decimalValue_cons, List.length_cons]
    congr 1
    ring

theorem parseUintLoop_digits : ∀ (ds : GoString) (n : Nat), (∀ b ∈ ds, isDigit b = true) →
    n * 10 ^ ds.length + decimalValue ds < 2 ^ 63 →
    parseUintLoop n ds = (n * 10 ^ ds.length + decimalValue ds, none) := by
  intro ds
  induction ds with
  | nil => intro n _ _; simp [parseUintLoop, decimalValue_nil]
  | cons c cs ih =>
    intro n h hlt
    have hc : isDigit c = true := h c (List.mem_cons_self _ _)
    have hc2 : 48 ≤ c ∧ c ≤ 57 := by simpa [isDigit] using hc
    have heq : n * 10 ^ (c :: cs).length + decimalValue (c :: cs)
        = (n * 10 + (c - 48)) * 10 ^ cs.length + decimalValue cs := by
      rw [decimalValue_cons, List.length_cons]; ring
    rw [heq] at hlt ⊢
    have hpos : 1 ≤ 10 ^ cs.length := Nat.one_le_pow _ _ (by norm_num)
    have hle : n * 10 + (c - 48) ≤ (n * 10 + (c - 48)) * 10 ^ cs.length :=
      Nat.le_mul_of_pos_right _ (by omega)
    have hsmall : n * 10 + (c - 48) < 2 ^ 63 := by omega
    have hmod : (n * 10 + (c - 48)) % 2 ^ 64 = n * 10 + (c - 48) :=
      Nat.mod_eq_of_lt (by omega)
    have ih2 := ih (n * 10 + (c - 48)) (fun b hb => h b (List.mem_cons_of_mem _ hb)) hlt
    have h1 : ¬ n ≥ maxUint64 / 10 + 1 := by
      simp only [maxUint64]; omega
    have h2 : ¬ (n * 10 + (c - 48) < n * 10 ∨ n * 10 + (c - 48) > maxUint64) := by
      simp only [maxUint64]; omega
    simp only [parseUintLoop, hc, if_true, hmod, h1, h2, if_false, ih2]

/-- Atoi on a non-empty string of digits denoting a number below 2 ^ 63: that
number, no error. -/
theorem Atoi_digits (ds : GoString) (hne : ds ≠ []) (h : ∀ b ∈ ds, isDigit b = true)
    (hlt : decimalValue ds < 2 ^ 63) : Atoi ds = ((decimalValue ds : Int), none) := by
  cases ds with
  | nil => exact absurd rfl hne
  | cons c cs =>
    have hc : isDigit c = true := h c (List.mem_cons_self _ _)
    have hc2 : 48 ≤ c ∧ c ≤ 57 := by simpa [isDigit] using hc
    have hc45 : c ≠ 45 := by omega
    have hc43 : c ≠ 43 := by omega
    by_cases hlen : 0 < (c :: cs).length ∧ (c :: cs).length < 19
    · have hl := atoiLoop_digits (c :: cs) 0 h
      simp only [Nat.zero_mul, Nat.zero_add] at hl
      simp only [Atoi, hlen, and_self, if_true, hc45, hc43, or_self, false_and, if_false, hl]
    · have hp := parseUintLoop_digits (c :: cs) 0 h (by simpa using hlt)
      simp only [Nat.zero_mul, Nat.zero_add] at hp
      have hcut : ¬ decimalValue (c :: cs) ≥ 2 ^ (intSize - 1) := by
        simp only [intSize]; omega
      have hcut2 : ¬ 2 ^ (intSize - 1) ≤ decimalValue (c :: cs) := hcut
      have hlen2 : ¬ (cs.length + 1 < 19) := by
        intro hh; exact hlen ⟨by simp, by simpa using hh⟩
      simp [Atoi, hlen2, ParseInt, ParseUint, hc45, hc43, hp, hcut2]

theorem digitChar_toNat (k : Nat) (hk : k < 10) : (Nat.digitChar k).toNat = 48 + k := by
  interval_cases k <;> rfl

theorem toDigitsCore_decimal : ∀ (fuel n : Nat) (acc : List Char), n < fuel →
    ∃ L : List Char, Nat.toDigitsCore 10 fuel n acc = L ++ acc ∧ L ≠ [] ∧
      (∀ b ∈ L.map Char.toNat, isDigit b = true) ∧ decimalValue (L.map Char.toNat) = n := by
  intro fuel
  induction fuel with
  | zero => intro n acc h; omega
  | succ fuel ih =>
    intro n acc hn
    have hd := digitChar_toNat (n % 10) (Nat.mod_lt _ (by norm_num))
    by_cases h0 : n / 10 = 0
    · refine ⟨[Nat.digitChar (n % 10)], ?_, by simp, ?_, ?_⟩
      · simp [Nat.toDigitsCore, h0]
      · intro b hb
        simp only [List.map_cons, List.map_nil, List.mem_singleton] at hb
        subst hb
        rw [hd]
        have := Nat.mod_lt n (show 10 > 0 by norm_num)
        simp [isDigit]; omega
      · simp only [List.map_cons, List.map_nil, decimalValue_cons, hd, List.length_nil,
          decimalValue_nil]
        omega
    · obtain ⟨L, hL, _, hdig, hval⟩ := ih (n / 10) (Nat.digitChar (n % 10) :: acc) (by omega)
      refine ⟨L ++ [Nat.digitChar (n % 10)], ?_, by simp, ?_, ?_⟩
      · simp [Nat.toDigitsCore, h0, hL]
      · intro b hb
        simp only [List.map_append, List.map_cons, List.map_nil, List.mem_append,
          List.mem_singleton] at hb
        rcases hb with hb | hb
        · exact hdig b hb
        · subst hb
          rw [hd]
          have := Nat.mod_lt n (show 10 > 0 by norm_num)
          simp [isDigit]; omega
      · simp only [List.map_append, List.map_cons, List.map_nil, decimalValue_append_singleton,
          hval, hd]
        omega

/-- The decimal form of a number (Go strconv.Itoa, Lean toString) is a
non-empty string of digits that denotes it. -/
theorem str_toString_decimal (n : Nat) :
    str (toString n) ≠ [] ∧ (∀ b ∈ str (toString n), isDigit b = true) ∧
      decimalValue (str (toString n)) = n := by
  obtain ⟨L, hL, hne, hdig, hval⟩ := toDigitsCore_decimal (n + 1) n [] (by omega)
  have hstr : str (toString n) = L.map Char.toNat := by
    show List.map Char.toNat (Nat.toDigits 10 n) = _
    rw [Nat.toDigits, hL]; simp
  rw [hstr]
  exact ⟨by simpa using hne, hdig, hval⟩

/-! ## A host that Atoi accepts was not changed by the parser -/

theorem atoiLoop_some_digits : ∀ (s : GoString) (n m : Nat), atoiLoop n s = some m →
    ∀ b ∈ s, isDigit b = true := by
  intro s
  induction s with
  | nil => intro n m _ b hb; simp at hb
  | cons c cs ih =>
    intro n m h b hb
    by_cases hc : isDigit c = true
    · simp only [atoiLoop, hc, if_true] at h
      rcases List.mem_cons.1 hb with hb | hb
      · subst hb; exact hc
      · exact ih _ _ h b hb
    · simp [atoiLoop, hc] at h

theorem parseUintLoop_ok_digits : ∀ (s : GoString) (n : Nat), (parseUintLoop n s).2 = none →
    ∀ b ∈ s, isDigit b = true := by
  intro s
  induction s with
  | nil => intro n _ b hb; simp at hb
  | cons c cs ih =>
    intro n h b hb
    by_cases hc : isDigit c = true
    · simp only [parseUintLoop, hc, if_true] at h
      split_ifs at h
      all_goals first
        | (exfalso; revert h; simp; done)
        | (rcases List.mem_cons.1 hb with hb | hb
           · subst hb; exact hc
           · exact ih _ h b hb)
    · simp [parseUintLoop, hc] at h

theorem parseUintLoop_range : ∀ (s : GoString) (n un : Nat),
    parseUintLoop n s = (un, some .ErrRange) → un = maxUint64 := by
  intro s
  induction s with
  | nil => intro n un h; simp [parseUintLoop] at h
  | cons c cs ih =>
    intro n un h
    by_cases hc : isDigit c = true
    · simp only [parseUintLoop, hc, if_true] at h
      split_ifs at h
      all_goals first
        | (simp only [Prod.mk.injEq] at h; exact h.1.symm)
        | exact ih _ _ h
    · simp [parseUintLoop, hc] at h

theorem ParseUint_ok_digits (s : GoString) (h : (ParseUint s).2 = none) :
    ∀ b ∈ s, isDigit b = true := by
  by_cases hs : s = []
  · simp [ParseUint, hs] at h
  · simp only [ParseUint, hs, if_false] at h
    exact parseUintLoop_ok_digits s 0 h

theorem ParseInt_ok_bytes (s : GoString) (h : (ParseInt s).2 = none) :
    ∀ b ∈ s, numeralByte b = true := by
  cases s with
  | nil => simp [ParseInt] at h
  | cons c cs =>
    have key : (ParseUint (if c = 43 ∨ c = 45 then cs else c :: cs)).2 = none := by
      simp only [ParseInt] at h
      rcases hp : ParseUint (if c = 43 ∨ c = 45 then cs else c :: cs) with ⟨un, e⟩
      rw [hp] at h
      cases e with
      | none => rfl
      | some e =>
        cases e with
        | ErrSyntax => simp at h
        | ErrRange =>
          exfalso
          have hu : un = maxUint64 := by
            by_cases hs : (if c = 43 ∨ c = 45 then cs else c :: cs) = []
            · simp [ParseUint, hs] at hp
            · simp only [ParseUint, hs, if_false] at hp
              exact parseUintLoop_range _ _ _ hp
          subst hu
          simp only [maxUint64, intSize] at h
          split_ifs at h <;> simp_all
    have hd := ParseUint_ok_digits _ key
    intro b hb
    by_cases hsign : c = 43 ∨ c = 45
    · simp only [hsign, if_true] at hd
      rcases List.mem_cons.1 hb with hb | hb
      · subst hb
        rcases hsign with h1 | h1 <;> subst h1 <;> decide
      · simp [numeralByte, hd b hb]
    · simp only [hsign, if_false] at hd
      simp [numeralByte, hd b hb]

theorem Atoi_ok_bytes (s : GoString) (h : (Atoi s).2 = none) :
    ∀ b ∈ s, numeralByte b = true := by
  by_cases hlen : 0 < s.length ∧ s.length < 19
  · cases s with
    | nil => simp at hlen
    | cons c cs =>
      unfold Atoi at h
      rw [if_pos hlen] at h
      intro b hb
      by_cases hsign : c = 45 ∨ c = 43
      · have hd : ∀ b ∈ cs, isDigit b = true := by
          cases hl : atoiLoop 0 cs with
          | none =>
            exfalso
            simp only [hsign, if_true, hl] at h
            split_ifs at h
          | some m => exact atoiLoop_some_digits _ _ _ hl
        rcases List.mem_cons.1 hb with hb | hb
        · subst hb
          rcases hsign with h2 | h2 <;> subst h2 <;> decide
        · simp [numeralByte, hd b hb]
      · have hd : ∀ b ∈ c :: cs, isDigit b = true := by
          cases hl : atoiLoop 0 (c :: cs) with
          | none =>
            exfalso
            simp only [hsign, if_false, hl, false_and] at h
            simp at h
          | some m => exact atoiLoop_some_digits _ _ _ hl
        simp [numeralByte, hd b hb]
  · simp only [Atoi, hlen, if_false] at h
    exact ParseInt_ok_bytes s h

theorem unescapeDecode_cons (mode : encoding) (c : Nat) (t : GoString) (h37 : c ≠ 37)
    (h43 : c ≠ 43) : unescapeDecode mode (c :: t) = c :: unescapeDecode mode t := by
  rcases t with _ | ⟨a, _ | ⟨b, r⟩⟩ <;> simp [unescapeDecode, h37, h43]

/-- In host mode an escape decodes to a percent sign or a non-ASCII byte, so a
decoded host made of numeral bytes held no escape. -/
theorem unescapeDecode_numeral : ∀ (v : GoString),
    unescapeCheck .encodeHost v = .ok () →
    (∀ b ∈ unescapeDecode .encodeHost v, numeralByte b = true) →
    unescapeDecode .encodeHost v = v := by
  intro v
  induction v with
  | nil => intro _ _; rfl
  | cons c rest ih =>
    intro hchk hnum
    by_cases h37 : c = 37
    · exfalso
      subst h37
      match rest, hchk, hnum with
      | [], hchk, _ => simp [unescapeCheck] at hchk
      | [a], hchk, _ => simp [unescapeCheck] at hchk
      | a :: b :: rest2, hchk, hnum =>
        have hbyte := hnum (unhex a * 16 + unhex b) (by simp [unescapeDecode])
        simp only [numeralByte, isDigit, Bool.or_eq_true, Bool.and_eq_true,
          decide_eq_true_eq] at hbyte
        by_cases h8 : unhex a < 8
        · by_cases h25 : a = 50 ∧ b = 53
          · rcases h25 with ⟨ha, hb⟩
            subst ha; subst hb
            simp [unhex] at hbyte
          · have hne : (decide (a = 50) && decide (b = 53)) = false := by
              simpa using h25
            simp [unescapeCheck, h8, hne] at hchk
        · omega
    · have hchk2 : unescapeCheck .encodeHost rest = .ok () := by
        unfold unescapeCheck at hchk
        simp only [h37, if_false] at hchk
        split_ifs at hchk
        all_goals exact hchk
      have hdec : unescapeDecode .encodeHost (c :: rest)
          = c :: unescapeDecode .encodeHost rest := by
        by_cases h43 : c = 43
        · subst h43
          rcases rest with _ | ⟨a, _ | ⟨b, r⟩⟩ <;> simp [unescapeDecode]
        · exact unescapeDecode_cons _ c rest h37 h43
      rw [hdec] at hnum ⊢
      rw [ih hchk2 (fun b hb => hnum b (List.mem_cons_of_mem _ hb))]

/-- A host with an opening bracket that parseHost accepts comes back with an
opening bracket in front. -/
theorem parseHost_bracket (v host : GoString) (i : Nat) (hl : lastIndexByte 91 v = some i)
    (h : parseHost v = .ok host) : 91 ∈ host := by
  unfold parseHost at h
  rw [hl] at h
  simp only at h
  repeat' split at h
  all_goals first
    | (simp only [Except.ok.injEq] at h; rw [← h]; exact by simp)
    | exact absurd h (by simp)

/-- A host that parseHost returns and Atoi accepts is the authority text itself. -/
theorem parseHost_numeral (v host : GoString) (h : parseHost v = .ok host)
    (hnum : ∀ b ∈ host, numeralByte b = true) : host = v := by
  cases hl : lastIndexByte 91 v with
  | some i =>
    exfalso
    have := hnum 91 (parseHost_bracket v host i hl h)
    exact absurd this (by decide)
  | none =>
    unfold parseHost at h
    rw [hl] at h
    simp only at h
    have hun : unescape v .encodeHost = .ok host := by
      cases hc : indexByte 58 v with
      | none => rw [hc] at h; exact h
      | some i =>
        rw [hc] at h
        simp only at h
        split_ifs at h
        exact h
    obtain ⟨hchk, hd⟩ := unescape_ok_decode _ _ _ hun
    rw [hd] at hnum ⊢
    exact unescapeDecode_numeral v hchk hnum

/-- A remote signal whose value holds no delimiter and is no integer ends the
dispatcher. -/
theorem fatalSignal_remote (v : GoString) (hv : noDelimiter v = true)
    (ha : (Atoi v).2 ≠ none) : fatalSignal (str "remote://" ++ v) := by
  have heq : str "remote://" ++ v = str "remote" ++ str "://" ++ v := by
    have : str "remote://" = str "remote" ++ str "://" := by decide
    rw [this]
  have hp := urlParse_value (str "remote") v (by decide) hv
  rw [← heq] at hp
  have hlow : toLower (str "remote") = str "remote" := by decide
  by_cases hc : stringContainsCTLByte v = true
  · left
    exact ⟨.invalidControlCharacter, by rw [hp]; simp [hc]⟩
  · simp only [hc, if_false, Bool.false_eq_true] at hp
    cases hh : parseHost v with
    | error e =>
      left
      rw [hh] at hp
      exact ⟨e, hp⟩
    | ok host =>
      right
      rw [hh, hlow] at hp
      refine ⟨_, hp, rfl, ?_⟩
      intro hok
      have := parseHost_numeral v host hh (Atoi_ok_bytes host hok)
      rw [this] at hok
      exact ha hok

/-! ## Lemmas on the dispatcher loop -/

theorem clientLaunch_returned (l : Launch) (sels : List Select) (h : l.returned = true) :
    clientLaunch l sels = l := by
  cases sels with
  | nil => rfl
  | cons sel rest => simp [clientLaunch, h]

theorem clientLaunch_append : ∀ (xs ys : List Select) (l : Launch),
    clientLaunch l (xs ++ ys) = clientLaunch (clientLaunch l xs) ys := by
  intro xs
  induction xs with
  | nil => intro ys l; rfl
  | cons x xs ih =>
    intro ys l
    by_cases h : l.returned = true
    · rw [clientLaunch_returned l _ h, clientLaunch_returned l _ h,
        clientLaunch_returned l _ h]
    · simp only [List.cons_append, clientLaunch, h, if_false, Bool.false_eq_true]
      exact ih ys _

theorem dispatch_append (l : Launch) (xs ys : List GoString) :
    dispatch l (xs ++ ys) = dispatch (dispatch l xs) ys := by
  simp [dispatch, clientLaunch_append]

theorem dispatch_returned (l : Launch) (xs : List GoString) (h : l.returned = true) :
    dispatch l xs = l :=
  clientLaunch_returned l _ h

theorem dispatch_cons (l : Launch) (s : GoString) (rest : List GoString)
    (h : l.returned = false) :
    dispatch l (s :: rest) = dispatch (clientLaunchIter l (.signal s)) rest := by
  simp [dispatch, clientLaunch, h]

theorem dispatch_singleton (l : Launch) (s : GoString) (h : l.returned = false) :
    dispatch l [s] = clientLaunchIter l (.signal s) := by
  simp [dispatch, clientLaunch, h]

theorem clientLaunchIter_fatal (l : Launch) (s : GoString) (h : fatalSignal s) :
    (clientLaunchIter l (.signal s)).returned = true ∧
      (clientLaunchIter l (.signal s)).spawned = l.spawned := by
  rcases h with ⟨e, he⟩ | ⟨u, hu, hs, ha⟩
  · simp [clientLaunchIter, he]
  · simp [clientLaunchIter, hu, hs, ha]

theorem dispatch_fatal (l : Launch) (pre post : List GoString) (s : GoString)
    (h : fatalSignal s) :
    (dispatch l (pre ++ [s])).returned = true ∧
      dispatch l (pre ++ s :: post) = dispatch l (pre ++ [s]) := by
  have hret : (dispatch l (pre ++ [s])).returned = true := by
    rw [dispatch_append]
    by_cases hr : (dispatch l pre).returned = true
    · rw [dispatch_returned _ _ hr]; exact hr
    · have hr2 : (dispatch l pre).returned = false := by simpa using hr
      rw [dispatch_singleton _ _ hr2]
      exact (clientLaunchIter_fatal _ s h).1
  refine ⟨hret, ?_⟩
  have : pre ++ s :: post = (pre ++ [s]) ++ post := by simp
  rw [this, dispatch_append, dispatch_returned _ _ hret]

/-! ## The dispatcher claims -/

/-- C1, as stated, fails: the value 80/x does not parse as an integer, yet the
dispatcher handles remote://80/x as a port update to 80 (the URL parser cuts the
host at the slash), keeps running, and spawns the TCP forward for session a. -/
theorem C1_counterexample :
    (Atoi (str "80/x")).2 ≠ none ∧
      (dispatch ⟨NewClient 8080, [], false⟩ [str "remote://80/x", str "tcp://a"]).returned
        = false ∧
      (dispatch ⟨NewClient 8080, [], false⟩ [str "remote://80/x", str "tcp://a"]).spawned
        = [.tcp (str "a")] ∧
      (dispatch ⟨NewClient 8080, [], false⟩ [str "remote://80/x", str "tcp://a"]).c.remoteAddrPort
        = 80 := by
  refine ⟨by decide, ?_, ?_, ?_⟩ <;> rfl

/-- C1, amended: for every sequence of signals fed in order to the dispatcher,
once a signal remote://v has been dispatched whose value v holds none of the
delimiters slash, question mark, hash, at sign and does not parse as an integer,
clientLaunch has returned, and the signals after it change nothing: the state
after the whole sequence is the state right after that signal (no task spawned,
port untouched). In particular remote://abc followed by tcp://a spawns nothing. -/
theorem C1_non_integer_remote_halts (l : Launch) (pre post : List GoString) (v : GoString)
    (hv : noDelimiter v = true) (ha : (Atoi v).2 ≠ none) :
    (dispatch l (pre ++ [str "remote://" ++ v])).returned = true ∧
      dispatch l (pre ++ (str "remote://" ++ v) :: post)
        = dispatch l (pre ++ [str "remote://" ++ v]) ∧
      (dispatch l [str "remote://abc", str "tcp://a"]).spawned = l.spawned := by
  have h := dispatch_fatal l pre post _ (fatalSignal_remote v hv ha)
  refine ⟨h.1, h.2, ?_⟩
  have habc : fatalSignal (str "remote://" ++ str "abc") :=
    fatalSignal_remote (str "abc") (by decide) (by decide)
  have h2 := dispatch_fatal l [] [str "tcp://a"] _ habc
  have heq : str "remote://" ++ str "abc" = str "remote://abc" := by decide
  rw [heq] at h2
  simp only [List.nil_append] at h2
  rw [h2.2]
  by_cases hr : l.returned = true
  · rw [dispatch_returned _ _ hr]
  · have hr2 : l.returned = false := by simpa using hr
    rw [dispatch_singleton _ _ hr2]
    rw [← heq]
    exact (clientLaunchIter_fatal l _ habc).2

/-- C1 at a concrete input: the value abc, after no signal and before tcp://a. -/
theorem C1_non_integer_remote_halts_witness :
    (dispatch ⟨NewClient 8080, [], false⟩ ([] ++ [str "remote://" ++ str "abc"])).returned = true ∧
      dispatch ⟨NewClient 8080, [], false⟩ ([] ++ (str "remote://" ++ str "abc") :: [str "tcp://a"])
        = dispatch ⟨NewClient 8080, [], false⟩ ([] ++ [str "remote://" ++ str "abc"]) ∧
      (dispatch ⟨NewClient 8080, [], false⟩ [str "remote://abc", str "tcp://a"]).spawned
        = (⟨NewClient 8080, [], false⟩ : Launch).spawned :=
  C1_non_integer_remote_halts ⟨NewClient 8080, [], false⟩ [] [str "tcp://a"] (str "abc")
    (by decide) (by decide)

/-- C3: for every port number n from 0 to 65535 written in decimal, a live
dispatcher that receives remote://n sets the data-dial port to n and changes
nothing else (no task spawned, still running); the dial function of the pool,
which reads the port when it is called, then dials port n; the dispatcher goes
on with the next signal. -/
theorem C3_remote_signal_sets_port (l : Launch) (n : Nat) (rest : List GoString)
    (hl : l.returned = false) (hn : n ≤ 65535) :
    clientLaunchIter l (.signal (str "remote://" ++ str (toString n)))
        = { l with c := { l.c with remoteAddrPort := (n : Int) } } ∧
      poolDial (clientLaunchIter l (.signal (str "remote://" ++ str (toString n)))).c = (n : Int) ∧
      dispatch l ((str "remote://" ++ str (toString n)) :: rest)
        = dispatch { l with c := { l.c with remoteAddrPort := (n : Int) } } rest := by
  obtain ⟨hne, hdig, hval⟩ := str_toString_decimal n
  have hplain : plainHost (str (toString n)) = true := by
    simp only [plainHost, List.all_eq_true]
    intro b hb
    have hd := hdig b hb
    simp only [isDigit, Bool.and_eq_true, decide_eq_true_eq] at hd
    have h1 : shouldEscape b .encodeHost = false := by
      simp [shouldEscape, isDigit, hd.1, hd.2]
    simp only [plainHostByte, h1, Bool.not_false, Bool.or_true, Bool.and_true,
      Bool.and_eq_true, decide_eq_true_eq]
    omega
  have heq : str "remote://" ++ str (toString n) = str "remote" ++ str "://" ++ str (toString n) := by
    have : str "remote://" = str "remote" ++ str "://" := by decide
    rw [this]
  have hp := urlParse_plain (str "remote") (str (toString n)) (by decide) hplain
  rw [← heq] at hp
  have hlow : toLower (str "remote") = str "remote" := by decide
  have hat := Atoi_digits (str (toString n)) hne hdig (by rw [hval]; omega)
  rw [hval] at hat
  have hiter : clientLaunchIter l (.signal (str "remote://" ++ str (toString n)))
      = { l with c := { l.c with remoteAddrPort := (n : Int) } } := by
    simp only [clientLaunchIter, hp, hlow, if_true, hat, ne_eq, not_true_eq_false, if_false]
  refine ⟨hiter, ?_, ?_⟩
  · rw [hiter]; rfl
  · rw [dispatch_cons l _ rest hl, hiter]

/-- C3 at a concrete input: port 9100 on a client that dialled port 8080. -/
theorem C3_remote_signal_sets_port_witness :
    clientLaunchIter ⟨NewClient 8080, [], false⟩ (.signal (str "remote://" ++ str (toString 9100)))
        = { (⟨NewClient 8080, [], false⟩ : Launch) with
            c := { (⟨NewClient 8080, [], false⟩ : Launch).c with remoteAddrPort := ((9100 : Nat) : Int) } } ∧
      poolDial (clientLaunchIter ⟨NewClient 8080, [], false⟩
        (.signal (str "remote://" ++ str (toString 9100)))).c = ((9100 : Nat) : Int) ∧
      dispatch ⟨NewClient 8080, [], false⟩ ((str "remote://" ++ str (toString 9100)) :: [])
        = dispatch { (⟨NewClient 8080, [], false⟩ : Launch) with
            c := { (⟨NewClient 8080, [], false⟩ : Launch).c with remoteAddrPort := ((9100 : Nat) : Int) } } [] :=
  C3_remote_signal_sets_port ⟨NewClient 8080, [], false⟩ 9100 [] rfl (by decide)

/-- C10 on the code: the value abc does not parse as an integer; a client whose
data-dial port is 8080 has data-dial port 0 after the dispatcher has handled
remote://abc and returned, because the result of Atoi is stored in the port
before the error is looked at. -/
theorem C10_port_overwritten_on_failure :
    (Atoi (str "abc")).2 ≠ none ∧
      (clientLaunchIter ⟨NewClient 8080, [], false⟩ (.signal (str "remote://abc"))).returned
        = true ∧
      (clientLaunchIter ⟨NewClient 8080, [], false⟩ (.signal (str "remote://abc"))).c.remoteAddrPort
        = 0 ∧
      poolDial (clientLaunchIter ⟨NewClient 8080, [], false⟩ (.signal (str "remote://abc"))).c
        ≠ poolDial (NewClient 8080) := by
  refine ⟨by decide, by rfl, by rfl, by decide⟩

/-! ## The signal queue -/

theorem foldl_offer (C : Nat) : ∀ (sigs ch : List GoString), ch.length ≤ C →
    sigs.foldl (offer C) ch = ch ++ sigs.take (C - ch.length) := by
  intro sigs
  induction sigs with
  | nil => intro ch _; simp
  | cons s rest ih =>
    intro ch hch
    by_cases hlt : ch.length < C
    · have hoff : offer C ch s = ch ++ [s] := by simp [offer, hlt]
      have hlen : (ch ++ [s]).length ≤ C := by simp; omega
      have hC : C - ch.length = (C - (ch ++ [s]).length) + 1 := by simp; omega
      rw [List.foldl_cons, hoff, ih _ hlen, hC, List.take_succ_cons]
      simp
    · have hoff : offer C ch s = ch := by simp [offer, hlt]
      have hz : C - ch.length = 0 := by omega
      rw [List.foldl_cons, hoff, ih _ hch, hz]
      simp

theorem signalQueue_oks (C : Nat) (trimSpace : GoString → GoString) :
    ∀ (raws : List GoString) (c : client), c.ctxDone = false →
      (signalQueue C trimSpace c (raws.map .ok)).signalChan
        = (raws.map trimSpace).foldl (offer C) c.signalChan := by
  intro raws
  induction raws with
  | nil => intro c _; rfl
  | cons r rest ih =>
    intro c hc
    simp only [List.map_cons, signalQueue, List.foldl_cons, hc, if_false, Bool.false_eq_true]
    exact ih _ rfl

theorem signalQueue_length (C : Nat) (trimSpace : GoString → GoString) :
    ∀ (reads : List (Except Unit GoString)) (c : client), c.signalChan.length ≤ C →
      (signalQueue C trimSpace c reads).signalChan.length ≤ C := by
  intro reads
  induction reads with
  | nil => intro c h; exact h
  | cons r rest ih =>
    intro c h
    cases r with
    | error e => exact h
    | ok raw =>
      simp only [signalQueue]
      split_ifs with hd
      · exact h
      · apply ih
        simp only [offer]
        split_ifs with hlt
        · simp; omega
        · exact h

/-- C4: the send of signalQueue is a non-blocking offer to a FIFO queue of
capacity C. An offer to a queue with fewer than C signals appends the signal at
the tail; an offer to a queue with C signals leaves it unchanged. When C + 1
lines are read with no receive in between, starting from an empty queue, the
queue ends up holding exactly the first C signals in arrival order (the last is
lost); and whatever is read, the queue never holds more than C signals. -/
theorem C4_signal_queue_drops_newest (C : Nat) (trimSpace : GoString → GoString) (c : client)
    (raws : List GoString) (hlive : c.ctxDone = false) (hempty : c.signalChan = [])
    (hlen : raws.length = C + 1) :
    (∀ (ch : List GoString) (s : GoString), ch.length < C → offer C ch s = ch ++ [s]) ∧
      (∀ (ch : List GoString) (s : GoString), ch.length = C → offer C ch s = ch) ∧
      (signalQueue C trimSpace c (raws.map .ok)).signalChan = (raws.map trimSpace).take C ∧
      (signalQueue C trimSpace c (raws.map .ok)).signalChan.length = C ∧
      (∀ (c0 : client) (reads : List (Except Unit GoString)), c0.signalChan.length ≤ C →
        (signalQueue C trimSpace c0 reads).signalChan.length ≤ C) := by
  have hq : (signalQueue C trimSpace c (raws.map .ok)).signalChan = (raws.map trimSpace).take C := by
    rw [signalQueue_oks C trimSpace raws c hlive, hempty, foldl_offer C _ [] (by simp)]
    simp
  refine ⟨?_, ?_, hq, ?_, ?_⟩
  · intro ch s h; simp [offer, h]
  · intro ch s h; simp [offer, h]
  · rw [hq]; simp [hlen]
  · intro c0 reads h; exact signalQueue_length C trimSpace reads c0 h

/-- C4 at a concrete input: capacity 2 and the three signals a, b, c. -/
theorem C4_signal_queue_drops_newest_witness :
    (∀ (ch : List GoString) (s : GoString), ch.length < 2 → offer 2 ch s = ch ++ [s]) ∧
      (∀ (ch : List GoString) (s : GoString), ch.length = 2 → offer 2 ch s = ch) ∧
      (signalQueue 2 id (NewClient 8080)
          ([str "tcp://a", str "tcp://b", str "tcp://c"].map .ok)).signalChan
        = ([str "tcp://a", str "tcp://b", str "tcp://c"].map id).take 2 ∧
      (signalQueue 2 id (NewClient 8080)
          ([str "tcp://a", str "tcp://b", str "tcp://c"].map .ok)).signalChan.length = 2 ∧
      (∀ (c0 : client) (reads : List (Except Unit GoString)), c0.signalChan.length ≤ 2 →
        (signalQueue 2 id c0 reads).signalChan.length ≤ 2) :=
  C4_signal_queue_drops_newest 2 id (NewClient 8080)
    [str "tcp://a", str "tcp://b", str "tcp://c"] rfl rfl rfl

/-! ## The forwarders -/

/-- C5: in every run of clientTCPOnce, whatever ClientGet, DialTCP and
DataExchange return, the pooled connection is closed exactly once when it was
acquired and never otherwise; the target connection is closed exactly once when
it was acquired and the dial succeeded and never otherwise; the target is dialled
once when the pooled connection was acquired and never otherwise. -/
theorem C5_tcp_forwarder_closes_once (env : TCPEnv) (c : client) (id : GoString) :
    (clientTCPOnce env c id).2.count .remoteClose = (if env.clientGet id then 1 else 0) ∧
      (clientTCPOnce env c id).2.count .targetClose
        = (if env.clientGet id && env.dialTCP then 1 else 0) ∧
      (clientTCPOnce env c id).2.count .targetDial = (if env.clientGet id then 1 else 0) := by
  cases hg : env.clientGet id <;> cases hd : env.dialTCP <;>
    simp [clientTCPOnce, hg, hd, List.count_cons]

theorem readInto_take (buffer data : GoString) :
    (readInto buffer data).1.take (readInto buffer data).2 = data.take buffer.length ∧
      (readInto buffer data).1.length = buffer.length := by
  simp only [readInto]
  have hlen : (data.take buffer.length).length = min data.length buffer.length := by
    simp [List.length_take, Nat.min_comm]
  constructor
  · rw [← hlen, List.take_left']
    rfl
  · simp only [List.length_append, hlen, List.length_drop]
    omega

/-- C6: in every run of clientUDPOnce that gets as far as the read of the reply
from the target (the pooled connection is acquired and yields a payload, the
dial, the write to the target and the deadline succeed) and in which that read
fails, the forwarder does exactly this, in order: acquire, read the payload,
dial, write the payload to the target, set the deadline, read (failing), close
the target connection, close the pooled connection. So nothing is written on
the pooled connection, and each connection is closed exactly once, the pooled
one last. -/
theorem C6_udp_no_reply_on_read_failure (udpDataBufSize : Nat) (env : UDPEnv) (c : client)
    (id payload : GoString) (hget : env.clientGet id = true)
    (hpayload : env.remoteRead = .ok payload) (hdial : env.dialUDP = true)
    (hwrite : env.targetWrite = true) (hdeadline : env.setReadDeadline = true)
    (hread : env.targetRead = .error ()) :
    (clientUDPOnce udpDataBufSize env c id).2
        = [.clientGet id, .remoteRead, .targetDial, .targetWrite (payload.take udpDataBufSize),
            .targetSetReadDeadline, .targetRead, .targetClose, .remoteClose] ∧
      (∀ data, Action.remoteWrite data ∉ (clientUDPOnce udpDataBufSize env c id).2) ∧
      (clientUDPOnce udpDataBufSize env c id).2.count .remoteClose = 1 ∧
      (clientUDPOnce udpDataBufSize env c id).2.count .targetClose = 1 ∧
      (clientUDPOnce udpDataBufSize env c id).2.getLast? = some .remoteClose := by
  have h1 := readInto_take (List.replicate udpDataBufSize 0) payload
  simp only [List.length_replicate] at h1
  have htrace : (clientUDPOnce udpDataBufSize env c id).2
      = [.clientGet id, .remoteRead, .targetDial, .targetWrite (payload.take udpDataBufSize),
          .targetSetReadDeadline, .targetRead, .targetClose, .remoteClose] := by
    simp only [clientUDPOnce, hget, hpayload, hdial, hwrite, hdeadline, hread, Bool.not_true,
      Bool.false_eq_true, if_false, h1.1]
    rfl
  rw [htrace]
  refine ⟨rfl, ?_, ?_, ?_, ?_⟩
  · intro data; simp
  · simp [List.count_cons]
  · simp [List.count_cons]
  · simp

/-- C6 at a concrete input: payload PING, every call but the read of the reply
succeeds. -/
theorem C6_udp_no_reply_on_read_failure_witness :
    (clientUDPOnce 8 ⟨fun _ => true, .ok (str "PING"), true, true, true, .error ()⟩
        (NewClient 8080) (str "sess2")).2
        = [.clientGet (str "sess2"), .remoteRead, .targetDial,
            .targetWrite ((str "PING").take 8),
            .targetSetReadDeadline, .targetRead, .targetClose, .remoteClose] ∧
      (∀ data, Action.remoteWrite data ∉
        (clientUDPOnce 8 ⟨fun _ => true, .ok (str "PING"), true, true, true, .error ()⟩
          (NewClient 8080) (str "sess2")).2) ∧
      (clientUDPOnce 8 ⟨fun _ => true, .ok (str "PING"), true, true, true, .error ()⟩
        (NewClient 8080) (str "sess2")).2.count .remoteClose = 1 ∧
      (clientUDPOnce 8 ⟨fun _ => true, .ok (str "PING"), true, true, true, .error ()⟩
        (NewClient 8080) (str "sess2")).2.count .targetClose = 1 ∧
      (clientUDPOnce 8 ⟨fun _ => true, .ok (str "PING"), true, true, true, .error ()⟩
        (NewClient 8080) (str "sess2")).2.getLast? = some .remoteClose :=
  C6_udp_no_reply_on_read_failure 8 ⟨fun _ => true, .ok (str "PING"), true, true, true, .error ()⟩
    (NewClient 8080) (str "sess2") (str "PING") rfl rfl rfl rfl rfl rfl

/-- C7: when the pooled connection is acquired and yields a payload no longer
than the buffer, the dial, the write to the target and the deadline succeed,
and the target replies with one datagram, clientUDPOnce does exactly this, in
order: acquire, read, dial, write the payload bytes to the target, set the
deadline, read the reply, write the reply (its first udpDataBufSize bytes) on
the pooled connection, close the target, close the pooled connection. With an
echoing target the bytes written back are the payload. -/
theorem C7_udp_round_trip (udpDataBufSize : Nat) (env : UDPEnv) (c : client)
    (id payload reply : GoString) (hget : env.clientGet id = true)
    (hpayload : env.remoteRead = .ok payload) (hlen : payload.length ≤ udpDataBufSize)
    (hdial : env.dialUDP = true) (hwrite : env.targetWrite = true)
    (hdeadline : env.setReadDeadline = true) (hreply : env.targetRead = .ok reply) :
    (clientUDPOnce udpDataBufSize env c id).2
        = [.clientGet id, .remoteRead, .targetDial, .targetWrite payload,
            .targetSetReadDeadline, .targetRead, .remoteWrite (reply.take udpDataBufSize),
            .targetClose, .remoteClose] ∧
      (reply = payload →
        Action.remoteWrite payload ∈ (clientUDPOnce udpDataBufSize env c id).2) := by
  have h1 := readInto_take (List.replicate udpDataBufSize 0) payload
  have h2 := readInto_take (readInto (List.replicate udpDataBufSize 0) payload).1 reply
  rw [h1.2] at h2
  simp only [List.length_replicate] at h1 h2
  have hp : payload.take udpDataBufSize = payload := List.take_of_length_le hlen
  have htrace : (clientUDPOnce udpDataBufSize env c id).2
      = [.clientGet id, .remoteRead, .targetDial, .targetWrite payload,
          .targetSetReadDeadline, .targetRead, .remoteWrite (reply.take udpDataBufSize),
          .targetClose, .remoteClose] := by
    simp only [clientUDPOnce, hget, hpayload, hdial, hwrite, hdeadline, hreply, Bool.not_true,
      Bool.false_eq_true, if_false, h1.1, h2.1, hp]
    rfl
  refine ⟨htrace, ?_⟩
  intro h
  rw [htrace, h, hp]
  simp

/-- C7 at a concrete input: payload PING, reply PONG, a buffer of 8 bytes. -/
theorem C7_udp_round_trip_witness :
    (clientUDPOnce 8 ⟨fun _ => true, .ok (str "PING"), true, true, true, .ok (str "PONG")⟩
        (NewClient 8080) (str "sess2")).2
        = [.clientGet (str "sess2"), .remoteRead, .targetDial, .targetWrite (str "PING"),
            .targetSetReadDeadline, .targetRead, .remoteWrite (str "PONG"),
            .targetClose, .remoteClose] ∧
      (str "PONG" = str "PING" →
        Action.remoteWrite (str "PING") ∈
          (clientUDPOnce 8 ⟨fun _ => true, .ok (str "PING"), true, true, true, .ok (str "PONG")⟩
            (NewClient 8080) (str "sess2")).2) :=
  C7_udp_round_trip 8 ⟨fun _ => true, .ok (str "PING"), true, true, true, .ok (str "PONG")⟩
    (NewClient 8080) (str "sess2") (str "PING") (str "PONG") rfl rfl (by decide) rfl rfl rfl rfl

/-! ## Stop -/

theorem drain_eq_nil : ∀ ch : List GoString, drain ch = [] := by
  intro ch
  induction ch with
  | nil => rfl
  | cons s rest ih => simpa [drain] using ih

/-- What Stop does, field by field: it never faults; it cancels when there is a
cancel function, calls Close once on every handle that is held, and empties the
queue. -/
theorem Stop_eq (c : client) :
    Stop c = .ok
      { ctxDone := c.ctxDone || c.cancel.isSome
        cancel := c.cancel
        remoteAddrPort := c.remoteAddrPort
        remotePool := c.remotePool.map Pool.Close
        targetUDPConn := c.targetUDPConn.map Conn.Close
        targetTCPConn := c.targetTCPConn.map Conn.Close
        tunnelConn := c.tunnelConn.map Conn.Close
        signalChan := [] } := by
  rcases c with ⟨done, cancel, port, pool, udp, tcp, tun, ch⟩
  cases cancel <;> cases pool <;> cases udp <;> cases tcp <;> cases tun <;>
    simp [Stop, callCancel, closePool, closeHandle, drain_eq_nil, bind, Except.bind,
      pure, Except.pure, Except.map, Functor.map]

/-- C8, as stated, fails: on a client that holds an open tunnel connection the
first Stop calls Close on it once, and the second Stop calls Close on it again
(two calls in all), so the second call does close a resource a second time and
the state after it is not the state after the first. -/
theorem C8_counterexample :
    Stop { NewClient 8080 with tunnelConn := some ⟨false, 0⟩ }
        = .ok { NewClient 8080 with tunnelConn := some ⟨true, 1⟩ } ∧
      Stop { NewClient 8080 with tunnelConn := some ⟨true, 1⟩ }
        = .ok { NewClient 8080 with tunnelConn := some ⟨true, 2⟩ } ∧
      ({ NewClient 8080 with tunnelConn := some ⟨true, 2⟩ } : client)
        ≠ { NewClient 8080 with tunnelConn := some ⟨true, 1⟩ } := by
  refine ⟨by rfl, by rfl, by decide⟩

/-- C8, amended: in every client state, the freshly built one included, Stop
ends without a fault of its own (it calls nothing through a nil handle), and so
does a second Stop. The first Stop cancels the context when there is a cancel
function, calls Close once on the pool and on every connection that is held,
leaves the port and the handles in place, and empties the queue. The second
Stop calls Close once more on the pool and on every held connection (Stop has
no guard against that); apart from these counted calls the state after the
second Stop is the state after the first (cancelled, pool and connections
closed, queue empty). On a client on which Start has not run Stop changes
nothing. -/
theorem C8_stop_safe_and_repeatable (c : client) :
    ∃ c1 c2, Stop c = .ok c1 ∧ Stop c1 = .ok c2 ∧
      c1.ctxDone = (c.ctxDone || c.cancel.isSome) ∧
      c1.cancel = c.cancel ∧
      c1.remoteAddrPort = c.remoteAddrPort ∧
      c1.remotePool = c.remotePool.map Pool.Close ∧
      c1.targetUDPConn = c.targetUDPConn.map Conn.Close ∧
      c1.targetTCPConn = c.targetTCPConn.map Conn.Close ∧
      c1.tunnelConn = c.tunnelConn.map Conn.Close ∧
      c1.signalChan = [] ∧
      c2.remotePool = c1.remotePool.map Pool.Close ∧
      c2.targetUDPConn = c1.targetUDPConn.map Conn.Close ∧
      c2.targetTCPConn = c1.targetTCPConn.map Conn.Close ∧
      c2.tunnelConn = c1.tunnelConn.map Conn.Close ∧
      c2.eraseCalls = c1.eraseCalls ∧
      (∀ port, Stop (NewClient port) = .ok (NewClient port)) := by
  refine ⟨_, _, Stop_eq c, Stop_eq _, rfl, rfl, rfl, rfl, rfl, rfl, rfl, rfl, rfl, rfl, rfl, rfl,
    ?_, ?_⟩
  · rcases c with ⟨done, cancel, port, pool, udp, tcp, tun, ch⟩
    cases cancel <;> cases pool <;> cases udp <;> cases tcp <;> cases tun <;>
      simp [client.eraseCalls, Conn.eraseCalls, Pool.eraseCalls, Conn.Close, Pool.Close]
  · intro port
    rw [Stop_eq]
    rfl

end NodePass
